import Mathlib

/-!
Shallow embedding of the GPU resource lifecycle and frame-synchronization
subsystem of the `vulkanisedfelt` demo (sources under `src/`), together with
theorems about device selection, swapchain image-count choice, the per-frame
acquire/present error protocol, logical-device/queue creation, name-set
filtering and the shared-ownership destruction order of the wrapper chain.

Machine integers of the C++ are modelled as `Nat`/`Int`; none of the modelled
arithmetic can overflow its 32/64-bit containers (counts and clamps of small
values, enum comparisons), so no explicit wrap-around is introduced.
Fallible C++ (throwing `std::runtime_error`) is modelled with `Except`/`Option`.
-/

namespace Vulkandemo

/-! ## Vulkan enum and result-code constants (vulkan_core.h values) -/

/-- `VK_SUCCESS` result code. -/
def VK_SUCCESS : Int := 0

/-- `VK_ERROR_OUT_OF_DATE_KHR` result code. -/
def VK_ERROR_OUT_OF_DATE_KHR : Int := -1000001004

/-- `VK_SUBOPTIMAL_KHR` result code. -/
def VK_SUBOPTIMAL_KHR : Int := 1000001003

/-- `VK_PHYSICAL_DEVICE_TYPE_DISCRETE_GPU` enum value. -/
def VK_PHYSICAL_DEVICE_TYPE_DISCRETE_GPU : Nat := 2

/-! ## draw.cpp: acquire and present (`draw.cpp` lines 43-70 and 147-169)

The native calls `vkAcquireNextImageKHR` / `vkQueuePresentKHR` are the
environment: their result code (and, for acquire, the written image index)
are inputs to the embedded functions, which translate the C++ branching on
that result.  A thrown `std::runtime_error` is `Except.error` carrying the
message prefix of the `std::format` call. -/

/-- Embedding of `vulkandemo::draw::acquire_next_swapchain_image`
(`draw.cpp:147-169`).  `result` is the `VkResult` of `vkAcquireNextImageKHR`
and `outIdx` the image index the native call wrote. -/
def acquire_next_swapchain_image (result : Int) (outIdx : Nat) :
    Except String (Option Nat) :=
  if result = VK_ERROR_OUT_OF_DATE_KHR ∨ result = VK_SUBOPTIMAL_KHR then
    Except.ok none
  else if result ≠ VK_SUCCESS then
    Except.error "Failed to acquire next swapchain image"
  else
    Except.ok (some outIdx)

/-- Embedding of `vulkandemo::draw::submit_present_image_cmd`
(`draw.cpp:43-70`).  `result` is the `VkResult` of `vkQueuePresentKHR`. -/
def submit_present_image_cmd (result : Int) : Except String Bool :=
  if result = VK_ERROR_OUT_OF_DATE_KHR ∨ result = VK_SUBOPTIMAL_KHR then
    Except.ok false
  else if result ≠ VK_SUCCESS then
    Except.error "Failed to present image"
  else
    Except.ok true

/-! ## Swapchain image count (`setup.cpp:430-437` and the older snapshots
`VulkanApp.cpp:604-607` / `vulkandemo.cpp:257-259`) -/

/-- Embedding of the `swapchain_image_count` computation of
`create_exclusive_double_buffer_swapchain` (`setup.cpp:430-437`):
`count = max(2, minImageCount)`, clamped by `maxImageCount` only when
`maxImageCount > 0` (0 means unlimited). -/
def swapchain_image_count (minImageCount maxImageCount : Nat) : Nat :=
  let count := max 2 minImageCount
  if maxImageCount > 0 then min maxImageCount count else count

/-- Embedding of the `swapchain_image_count` computation of the older
snapshots `VulkanApp::create_double_buffer_swapchain`
(`VulkanApp.cpp:604-607`) and `VulkanApp::create_swapchain`
(`vulkandemo.cpp:257-259`):
`count = min(max(2, minImageCount), maxImageCount)` with no special case for
`maxImageCount == 0`. -/
def swapchain_image_count_legacy (minImageCount maxImageCount : Nat) : Nat :=
  min (max 2 minImageCount) maxImageCount

/-- A surface capability report that the Vulkan specification permits:
`minImageCount ≥ 1`, and `maxImageCount` is either the "unbounded" sentinel 0
or at least `minImageCount`. -/
def ValidSurfaceCapabilities (minImageCount maxImageCount : Nat) : Prop :=
  1 ≤ minImageCount ∧ (maxImageCount = 0 ∨ minImageCount ≤ maxImageCount)

instance (minC maxC : Nat) : Decidable (ValidSurfaceCapabilities minC maxC) := by
  unfold ValidSurfaceCapabilities
  infer_instance

/-! ## Name-set filtering (`setup.cpp:706-767`, `setup.cpp:1062-1095`,
`setup.cpp:1142-1180`)

The C++ works with `std::set` of name views.  `setOfNames` models the
construction of a `std::set` from a range of names: a strictly-sorted,
duplicate-free list.  `ranges::views::set_intersection` of two sorted
unique ranges yields exactly the elements of the first range that also occur
in the second, in order, which is what `sortedIntersect` computes. -/

/-- One `std::set` insertion: place `x` in the strictly sorted list,
dropping it if already present. -/
def insertName (x : String) : List String → List String
  | [] => [x]
  | y :: ys =>
    if x < y then x :: y :: ys
    else if x = y then y :: ys
    else y :: insertName x ys

/-- Model of constructing a `std::set<...NameView>` from a range of names:
a strictly sorted list without duplicates. -/
def setOfNames (names : List String) : List String :=
  names.foldr insertName []

/-- `ranges::views::set_intersection` on sorted unique ranges: the elements
of `xs` that are also in `ys`, in the order of `xs`. -/
def sortedIntersect (xs ys : List String) : List String :=
  xs.filter (fun x => decide (x ∈ ys))

/-- Embedding of `vulkandemo::setup::filter_available_device_extensions`
(`setup.cpp:706-767`).  `desired` models the `std::set` argument (as the list
of names it was built from); `available` models the extension names
enumerated from the device.  The C++ returns early when the desired set is
empty, otherwise intersects the available-name set with the desired set
(available first). -/
def filter_available_device_extensions (desired available : List String) :
    List String :=
  if setOfNames desired = [] then []
  else sortedIntersect (setOfNames available) (setOfNames desired)

/-- Embedding of `vulkandemo::setup::filter_available_layers`
(`setup.cpp:1062-1095`): intersection of the desired-layer set with the
available-layer set (desired first). -/
def filter_available_layers (desired available : List String) : List String :=
  sortedIntersect (setOfNames desired) (setOfNames available)

/-- Embedding of `vulkandemo::setup::filter_available_instance_extensions`
(`setup.cpp:1142-1180`): intersection of the desired-extension set with the
available-extension set (desired first). -/
def filter_available_instance_extensions (desired available : List String) :
    List String :=
  sortedIntersect (setOfNames desired) (setOfNames available)

/-! ## Physical-device model and selection (`setup.cpp:638-835`)

A `VkPhysicalDevice` is an opaque handle whose properties are queried through
the API; the model identifies the handle with the queried data.  Since a
single (optional) surface is in play during selection, the per-family result
of `vkGetPhysicalDeviceSurfaceSupportKHR` is a `Bool` field of the family. -/

/-- One entry of `vkGetPhysicalDeviceQueueFamilyProperties`, together with
the response of `vkGetPhysicalDeviceSurfaceSupportKHR` for this family and
the surface under consideration. -/
structure QueueFamily where
  queueFlags : Nat
  presentSupport : Bool
deriving DecidableEq, Repr, Inhabited

/-- A candidate physical device: the queryable state behind a
`VkPhysicalDevice` handle. `memoryTypes` lists the `propertyFlags` of each
`VkMemoryType`. -/
structure PhysicalDevice where
  deviceType : Nat
  extensionNames : List String
  queueFamilies : List QueueFamily
  memoryTypes : List Nat
deriving DecidableEq, Repr

/-- Embedding of `vulkandemo::setup::filter_available_queue_families`
(`setup.cpp:769-807`): indices of families whose capability flags are a
superset of `desiredQueueCapabilities`, and which, when a surface is
required, report presentation support for it. -/
def filter_available_queue_families (dev : PhysicalDevice)
    (desiredQueueCapabilities : Nat) (requireSurface : Bool) : List Nat :=
  (((List.range dev.queueFamilies.length).filter fun idx =>
      decide
        (((dev.queueFamilies.getD idx default).queueFlags &&&
            desiredQueueCapabilities) = desiredQueueCapabilities)).filter
    fun idx =>
      if requireSurface then (dev.queueFamilies.getD idx default).presentSupport
      else true)

/-- Embedding of `vulkandemo::setup::filter_available_memory_types`
(`setup.cpp:809-835`): indices of memory types whose property flags are a
superset of `memoryFlags`. -/
def filter_available_memory_types (dev : PhysicalDevice)
    (memoryFlags : Nat) : List Nat :=
  (List.range dev.memoryTypes.length).filter fun idx =>
    decide ((dev.memoryTypes.getD idx 0 &&& memoryFlags) = memoryFlags)

/-- A surviving candidate of `select_physical_device`: its score, the device
and the chosen queue family index. -/
structure Candidate where
  score : Nat
  dev : PhysicalDevice
  queueFamily : Nat
deriving DecidableEq, Repr

/-- The per-device filtering step of `select_physical_device`
(`setup.cpp:649-678`): `none` when the device is rejected, otherwise the
candidate entry pushed onto the candidate vector. -/
def candidateOfDevice (requiredExtensions : List String)
    (requiredQueueCapabilities requiredMemoryFlags : Nat)
    (requireSurface : Bool) (dev : PhysicalDevice) : Option Candidate :=
  let filteredExtensions :=
    filter_available_device_extensions requiredExtensions dev.extensionNames
  if filteredExtensions.length < (setOfNames requiredExtensions).length then
    none
  else
    match filter_available_queue_families dev requiredQueueCapabilities
        requireSurface with
    | [] => none
    | queueFamilyIdx :: _ =>
      if (filter_available_memory_types dev requiredMemoryFlags).isEmpty then
        none
      else
        some
          { score :=
              if dev.deviceType = VK_PHYSICAL_DEVICE_TYPE_DISCRETE_GPU then 1
              else 0
            dev := dev
            queueFamily := queueFamilyIdx }

/-- `std::ranges::sort` by ascending score (`setup.cpp:684-687`), modelled as
a stable insertion sort: an element is placed before the first
already-sorted element of greater-or-equal score, so candidates of equal
score keep their enumeration order (`std::ranges::sort` leaves the order of
equivalent elements unspecified; the common library implementations are
stable on the short candidate vectors arising here, via insertion sort). -/
def insertCandidateAsc (c : Candidate) : List Candidate → List Candidate
  | [] => [c]
  | d :: ds =>
    if c.score ≤ d.score then c :: d :: ds else d :: insertCandidateAsc c ds

/-- Sort the candidate vector by ascending score (stable). -/
def sortCandidates (cs : List Candidate) : List Candidate :=
  cs.foldr insertCandidateAsc []

/-- Embedding of `vulkandemo::setup::select_physical_device`
(`setup.cpp:638-704`): filter each enumerated device, throw
(`none`) when no candidate survives, sort by score ascending and return the
last (highest-scoring) candidate's device and queue family index. -/
def select_physical_device (physicalDevices : List PhysicalDevice)
    (requiredExtensions : List String)
    (requiredQueueCapabilities requiredMemoryFlags : Nat)
    (requireSurface : Bool) : Option (PhysicalDevice × Nat) :=
  let candidates := physicalDevices.filterMap
    (candidateOfDevice requiredExtensions requiredQueueCapabilities
      requiredMemoryFlags requireSurface)
  match (sortCandidates candidates).getLast? with
  | none => none
  | some c => some (c.dev, c.queueFamily)

/-- The candidate vector of `select_physical_device` before sorting
(`setup.cpp:647-678`), in device enumeration order. -/
def selectionCandidates (physicalDevices : List PhysicalDevice)
    (requiredExtensions : List String)
    (requiredQueueCapabilities requiredMemoryFlags : Nat)
    (requireSurface : Bool) : List Candidate :=
  physicalDevices.filterMap
    (candidateOfDevice requiredExtensions requiredQueueCapabilities
      requiredMemoryFlags requireSurface)

/-- The devices that survive the filtering of `select_physical_device`, in
enumeration order. -/
def survivingDevices (physicalDevices : List PhysicalDevice)
    (requiredExtensions : List String)
    (requiredQueueCapabilities requiredMemoryFlags : Nat)
    (requireSurface : Bool) : List PhysicalDevice :=
  (selectionCandidates physicalDevices requiredExtensions
    requiredQueueCapabilities requiredMemoryFlags requireSurface).map
    Candidate.dev

/-- A sample discrete GPU satisfying empty requirement sets (used as a
concrete selection input). -/
def discreteDevA : PhysicalDevice :=
  { deviceType := VK_PHYSICAL_DEVICE_TYPE_DISCRETE_GPU
    extensionNames := ["ext_a"]
    queueFamilies := [⟨0, false⟩]
    memoryTypes := [0] }

/-- A second sample discrete GPU, distinguishable from `discreteDevA` by its
available extension list. -/
def discreteDevB : PhysicalDevice :=
  { deviceType := VK_PHYSICAL_DEVICE_TYPE_DISCRETE_GPU
    extensionNames := ["ext_b"]
    queueFamilies := [⟨0, false⟩]
    memoryTypes := [0] }

/-- A sample non-discrete (integrated) device satisfying empty requirement
sets. -/
def integratedDevC : PhysicalDevice :=
  { deviceType := 1
    extensionNames := ["ext_c"]
    queueFamilies := [⟨0, false⟩]
    memoryTypes := [0] }

/-! ## Logical device and queue creation (`setup.cpp:493-581`)

`vkGetDeviceQueue(device, family, idx, &queue)` resolves, for the fixed
logical device, the pair `(family, idx)` to a queue handle; the model
identifies the handle with that pair.  The queue priority `1.0F` is exact in
binary floating point and is modelled as `(1 : ℚ)`. -/

/-- A `VkQueue` handle retrieved by `vkGetDeviceQueue` for the created
device: determined by queue family index and queue index. -/
structure VkQueue where
  family : Nat
  idx : Nat
deriving DecidableEq, Repr

/-- One `VkDeviceQueueCreateInfo` (`setup.cpp:517-521`): family, count, and
the (shared) queue-priority array it points at. -/
structure DeviceQueueCreateInfo where
  queueFamilyIndex : Nat
  queueCount : Nat
  queuePriorities : List ℚ
deriving DecidableEq, Repr

/-- `std::map::operator[]` followed by appending `qs` to the entry's vector:
insert `(fam, qs)` into the key-sorted association list, appending to the
existing entry when the key is present. -/
def mapAppendQueues (fam : Nat) (qs : List VkQueue) :
    List (Nat × List VkQueue) → List (Nat × List VkQueue)
  | [] => [(fam, qs)]
  | (f, v) :: rest =>
    if fam < f then (fam, qs) :: (f, v) :: rest
    else if fam = f then (f, v ++ qs) :: rest
    else (f, v) :: mapAppendQueues fam qs rest

/-- The queue handles retrieved for one `(family, count)` request
(`setup.cpp:572-577`): `vkGetDeviceQueue` at indices `0 .. count-1`. -/
def queuesOfRequest (fam count : Nat) : List VkQueue :=
  (List.range count).map (fun idx => ⟨fam, idx⟩)

/-- The `queues` map construction loop of `create_device_and_queues`
(`setup.cpp:567-578`) starting from an intermediate map state: a fold of
`std::map` upserts over the remaining request span. -/
def buildQueueMapFrom (requests : List (Nat × Nat))
    (m : List (Nat × List VkQueue)) : List (Nat × List VkQueue) :=
  requests.foldl (fun m fc => mapAppendQueues fc.1 (queuesOfRequest fc.1 fc.2) m) m

/-- The `queues` map construction loop of `create_device_and_queues`
(`setup.cpp:567-578`), starting from the default-constructed empty map. -/
def buildQueueMap (requests : List (Nat × Nat)) : List (Nat × List VkQueue) :=
  buildQueueMapFrom requests []

/-- Embedding of `vulkandemo::setup::create_device_and_queues`
(`setup.cpp:493-581`), restricted to the queue plan (extension names play no
role in the claims about it).  Returns the shared queue-priority array, the
`VkDeviceQueueCreateInfo` vector and the family-to-queues map.
`std::ranges::max` over the requested counts has undefined behaviour on an
empty span, modelled as `none` via `List.max?`. -/
def create_device_and_queues (requests : List (Nat × Nat)) :
    Option (List ℚ × List DeviceQueueCreateInfo × List (Nat × List VkQueue)) :=
  match (requests.map Prod.snd).max? with
  | none => none
  | some maxCount =>
    let queuePriorities : List ℚ := List.replicate maxCount 1
    let queueCreateInfos := requests.map fun fc =>
      DeviceQueueCreateInfo.mk fc.1 fc.2 queuePriorities
    some (queuePriorities, queueCreateInfos, buildQueueMap requests)

/-! ## Shared-ownership destruction order (`types.cpp`)

Every wrapper in `types.cpp` is a `std::shared_ptr` with a custom deleter
that captures (by value) `shared_ptr` copies of the wrapper's dependencies
and issues exactly one native destroy call before those captures are
themselves released.  The model is the reference-counting semantics of that
arrangement: objects are numbered in creation order (so every captured
dependency has a smaller number), a state holds each object's reference
count and the log of native destroy calls, and releasing a reference
decrements the count, destroying the object and cascading into its captured
dependencies exactly when the count reaches zero. -/

/-- Reference-counting state: per-object reference counts (indexed by object
number) and the ordered log of native destroy calls issued so far. -/
structure RcState where
  counts : List Nat
  destroyLog : List Nat
deriving DecidableEq, Repr

/-- Release one reference to object `i`: decrement its count; on the
transition to zero, issue the native destroy call (append `i` to the log)
and then release the references its deleter captured (`deps i`), as the
deleter's closure is destroyed after it runs.  `fuel` bounds the cascade
depth; since captured dependencies have strictly smaller numbers, fuel
exceeding `i` is always sufficient. -/
def releaseRef (deps : Nat → List Nat) : Nat → RcState → Nat → RcState
  | 0, s, _ => s
  | fuel + 1, s, i =>
    let c := s.counts.getD i 0
    if c = 0 then s
    else if c = 1 then
      (deps i).foldl (releaseRef deps fuel)
        ⟨s.counts.set i 0, s.destroyLog ++ [i]⟩
    else ⟨s.counts.set i (c - 1), s.destroyLog⟩

/-- Total number of references to object `i` captured by the deleters of
objects outside `excluded` (among objects `0 .. n-1`). -/
def capturedRefs (deps : Nat → List Nat) (n : Nat) (excluded : List Nat)
    (i : Nat) : Nat :=
  ((List.range n).map fun k =>
    if k ∈ excluded then 0 else (deps k).count i).sum

/-- Initial state after constructing the whole chain: each object's count is
one (the client's handle) plus the references captured by deleters. -/
def initialRcState (deps : Nat → List Nat) (n : Nat) : RcState :=
  ⟨(List.range n).map (fun i => 1 + capturedRefs deps n [] i), []⟩

/-- Run a sequence of client-side releases (each the scope-exit of one
wrapper handle) from a state. -/
def runReleases (deps : Nat → List Nat) (n : Nat) (order : List Nat)
    (s : RcState) : RcState :=
  order.foldl (releaseRef deps n) s

/-- Deleter captures of the wrapper chain of `types.cpp`, by object number
in creation order: 0 instance, 1 device (`make_device_ptr` captures
nothing), 2 surface (captures instance), 3 debug messenger (captures
instance), 4 swapchain, 5 image view, 6 render pass, 7 framebuffer,
8 command pool (each capturing the device), 9 command-buffer batch
(captures device and command pool), 10 semaphore, 11 buffer, 12 device
memory (each capturing the device). -/
def vulkanDepsList : List (List Nat) :=
  [[], [], [0], [0], [1], [1], [1], [1], [1], [1, 8], [1], [1], [1]]

/-- Deleter captures as a function on object numbers. -/
def vulkanDeps (k : Nat) : List Nat :=
  vulkanDepsList.getD k []

/-- Number of wrapped objects in the `types.cpp` chain model. -/
def vulkanChainSize : Nat := vulkanDepsList.length

/-- Dependency capture is well-formed: every captured dependency was created
earlier (has a smaller object number), as in `types.cpp`, where each
`make_*_ptr` receives already-constructed wrappers. -/
def DepsWf (deps : Nat → List Nat) : Prop :=
  ∀ k, ∀ j ∈ deps k, j < k

/-- Reference-count accounting invariant tying a state to a ghost assignment
`ext` of externally held references: counts are sized to the object pool;
each object's count is its external references plus the references captured
by deleters of not-yet-destroyed objects; destroy calls are unique, in
range, never precede the destruction of a dependent, and destroyed objects
have no external references left. -/
structure RcInv (deps : Nat → List Nat) (n : Nat) (s : RcState)
    (ext : Nat → Nat) : Prop where
  counts_len : s.counts.length = n
  counts_eq : ∀ i, s.counts.getD i 0 = ext i + capturedRefs deps n s.destroyLog i
  log_nodup : s.destroyLog.Nodup
  log_lt : ∀ i ∈ s.destroyLog, i < n
  log_ord : ∀ i ∈ s.destroyLog, ∀ k, k < n → i ∈ deps k → k ∈ s.destroyLog
  log_ext : ∀ i ∈ s.destroyLog, ext i = 0

/-! ## Theorems -/

/-! ### Name-set lemmas -/

theorem mem_insertName {a x : String} {l : List String} :
    a ∈ insertName x l ↔ a = x ∨ a ∈ l := by
  induction l with
  | nil => simp [insertName]
  | cons y ys ih =>
    unfold insertName
    split_ifs with hlt heq
    · simp
    · subst heq
      simp only [List.mem_cons]
      constructor
      · exact fun h => Or.inr h
      · rintro (rfl | h)
        · exact Or.inl rfl
        · exact h
    · simp only [List.mem_cons, ih]
      tauto

theorem mem_setOfNames {a : String} {l : List String} :
    a ∈ setOfNames l ↔ a ∈ l := by
  induction l with
  | nil => simp [setOfNames]
  | cons x xs ih =>
    simp only [setOfNames, List.foldr_cons, mem_insertName, List.mem_cons]
    rw [show xs.foldr insertName [] = setOfNames xs from rfl, ih]

theorem pairwise_insertName {x : String} {l : List String}
    (h : l.Pairwise (· < ·)) : (insertName x l).Pairwise (· < ·) := by
  induction l with
  | nil => simp [insertName]
  | cons y ys ih =>
    rcases List.pairwise_cons.mp h with ⟨hy, hys⟩
    unfold insertName
    split_ifs with hlt heq
    · exact List.pairwise_cons.mpr
        ⟨fun z hz => by
          rcases List.mem_cons.mp hz with rfl | hz
          · exact hlt
          · exact lt_trans hlt (hy z hz), h⟩
    · exact h
    · have hyx : y < x := by
        rcases lt_trichotomy x y with h1 | h1 | h1
        · exact absurd h1 hlt
        · exact absurd h1 heq
        · exact h1
      refine List.pairwise_cons.mpr ⟨fun z hz => ?_, ih hys⟩
      rcases mem_insertName.mp hz with rfl | hz
      · exact hyx
      · exact hy z hz

theorem pairwise_setOfNames (l : List String) :
    (setOfNames l).Pairwise (· < ·) := by
  induction l with
  | nil => simp [setOfNames]
  | cons x xs ih => exact pairwise_insertName ih

theorem nodup_setOfNames (l : List String) : (setOfNames l).Nodup :=
  (pairwise_setOfNames l).imp ne_of_lt

theorem setOfNames_eq_nil_iff {l : List String} :
    setOfNames l = [] ↔ l = [] := by
  constructor
  · intro h
    cases l with
    | nil => rfl
    | cons x xs =>
      exact absurd (mem_setOfNames.mpr (List.mem_cons_self x xs))
        (by simp [h])
  · rintro rfl
    rfl

theorem mem_filter_available_device_extensions
    {x : String} {desired available : List String} :
    x ∈ filter_available_device_extensions desired available ↔
      x ∈ desired ∧ x ∈ available := by
  unfold filter_available_device_extensions sortedIntersect
  split_ifs with hnil
  · have : desired = [] := setOfNames_eq_nil_iff.mp hnil
    subst this
    simp
  · simp only [List.mem_filter, decide_eq_true_eq, mem_setOfNames]
    tauto

theorem mem_filter_available_layers
    {x : String} {desired available : List String} :
    x ∈ filter_available_layers desired available ↔
      x ∈ desired ∧ x ∈ available := by
  unfold filter_available_layers sortedIntersect
  simp only [List.mem_filter, decide_eq_true_eq, mem_setOfNames]

theorem mem_filter_available_instance_extensions
    {x : String} {desired available : List String} :
    x ∈ filter_available_instance_extensions desired available ↔
      x ∈ desired ∧ x ∈ available := by
  unfold filter_available_instance_extensions sortedIntersect
  simp only [List.mem_filter, decide_eq_true_eq, mem_setOfNames]

/-- C7: each of the three filtering operations returns exactly the
intersection `desired ∩ available` (membership characterization), contains
no duplicate names, and its membership is invariant under reordering of
either input. -/
theorem filter_available_intersection (desired available : List String) :
    ((filter_available_device_extensions desired available).Nodup ∧
      (filter_available_layers desired available).Nodup ∧
      (filter_available_instance_extensions desired available).Nodup) ∧
    (∀ x, x ∈ filter_available_device_extensions desired available ↔
      x ∈ desired ∧ x ∈ available) ∧
    (∀ x, x ∈ filter_available_layers desired available ↔
      x ∈ desired ∧ x ∈ available) ∧
    (∀ x, x ∈ filter_available_instance_extensions desired available ↔
      x ∈ desired ∧ x ∈ available) ∧
    (∀ desired2 available2, desired.Perm desired2 → available.Perm available2 →
      ∀ x,
        (x ∈ filter_available_device_extensions desired available ↔
          x ∈ filter_available_device_extensions desired2 available2) ∧
        (x ∈ filter_available_layers desired available ↔
          x ∈ filter_available_layers desired2 available2) ∧
        (x ∈ filter_available_instance_extensions desired available ↔
          x ∈ filter_available_instance_extensions desired2 available2)) := by
  refine ⟨⟨?_, ?_, ?_⟩, fun x => mem_filter_available_device_extensions,
    fun x => mem_filter_available_layers,
    fun x => mem_filter_available_instance_extensions,
    fun desired2 available2 hd ha x => ?_⟩
  · unfold filter_available_device_extensions sortedIntersect
    split_ifs
    · exact List.nodup_nil
    · exact (nodup_setOfNames available).filter _
  · exact (nodup_setOfNames desired).filter _
  · exact (nodup_setOfNames desired).filter _
  · refine ⟨?_, ?_, ?_⟩
    · rw [mem_filter_available_device_extensions,
        mem_filter_available_device_extensions, hd.mem_iff, ha.mem_iff]
    · rw [mem_filter_available_layers, mem_filter_available_layers,
        hd.mem_iff, ha.mem_iff]
    · rw [mem_filter_available_instance_extensions,
        mem_filter_available_instance_extensions, hd.mem_iff, ha.mem_iff]

/-- C7 witness: the intersection characterization and permutation
invariance at concrete name sets. -/
theorem filter_available_intersection_witness :
    ("a" ∈ filter_available_layers ["b", "a"] ["a", "c"]) ∧
    ("a" ∈ filter_available_device_extensions ["a", "b"] ["c", "a"]) :=
  ⟨((filter_available_intersection ["b", "a"] ["a", "c"]).2.2.1 "a").mpr
      (by decide),
    (((filter_available_intersection ["b", "a"] ["a", "c"]).2.2.2.2
        ["a", "b"] ["c", "a"] (by decide) (by decide) "a").1).mp
      (((filter_available_intersection ["b", "a"] ["a", "c"]).2.1 "a").mpr
        (by decide))⟩

/-- C2 (amended): for every surface capability report, the image count `n`
chosen by the refined swapchain creation equals
`clamp(max(2, minImageCount), maxImageCount)` with the clamp skipped when
`maxImageCount = 0` (definitionally), satisfies `n ≤ maxImageCount` whenever
`maxImageCount > 0`, and satisfies `2 ≤ n` whenever `maxImageCount = 0` or
`2 ≤ maxImageCount`.  (The unamended bound `2 ≤ n` fails when
`maxImageCount = 1`.) -/
theorem swapchain_image_count_bounds (minC maxC : Nat) :
    (maxC = 0 ∨ swapchain_image_count minC maxC ≤ maxC) ∧
    ((maxC = 0 ∨ 2 ≤ maxC) → 2 ≤ swapchain_image_count minC maxC) := by
  simp only [swapchain_image_count, Nat.min_def, Nat.max_def]
  split_ifs <;> omega

/-- C2 witness: the amended bounds evaluated at concrete reports. -/
theorem swapchain_image_count_bounds_witness :
    2 ≤ swapchain_image_count 1 0 ∧ swapchain_image_count 3 4 ≤ 4 :=
  ⟨(swapchain_image_count_bounds 1 0).2 (Or.inl rfl),
    ((swapchain_image_count_bounds 3 4).1).resolve_left (by decide)⟩

/-- C2 counterexample: `minImageCount = 1`, `maxImageCount = 1` is a surface
capability report the platform may legally produce, yet the chosen image
count is `1 < 2`. -/
theorem swapchain_image_count_not_always_two :
    ValidSurfaceCapabilities 1 1 ∧ swapchain_image_count 1 1 = 1 ∧
      ¬ 2 ≤ swapchain_image_count 1 1 := by
  decide

/-- C9 (amended): the older snapshots' image-count computation
`min(max(2, min), max)` agrees with the refined computation whenever
`maxImageCount ≠ 0`; at the unbounded sentinel `maxImageCount = 0` they
disagree (the legacy form collapses to 0). -/
theorem swapchain_image_count_refines_legacy (minC maxC : Nat)
    (h : maxC ≠ 0) :
    swapchain_image_count minC maxC = swapchain_image_count_legacy minC maxC := by
  simp only [swapchain_image_count, swapchain_image_count_legacy]
  rw [if_pos (Nat.pos_of_ne_zero h)]
  exact Nat.min_comm _ _

/-- C9 witness: agreement at a concrete bounded report. -/
theorem swapchain_image_count_refines_legacy_witness :
    swapchain_image_count 1 1 = swapchain_image_count_legacy 1 1 :=
  swapchain_image_count_refines_legacy 1 1 (by decide)

/-- C9 counterexample: at `maxImageCount = 0` the two computations differ
(`2` versus `0`), refuting the claimed agreement at the unbounded
sentinel. -/
theorem swapchain_image_count_legacy_disagrees_at_zero :
    swapchain_image_count 1 0 = 2 ∧ swapchain_image_count_legacy 1 0 = 0 ∧
      swapchain_image_count 1 0 ≠ swapchain_image_count_legacy 1 0 := by
  decide

/-- C3: `acquire_next_swapchain_image` returns `ok none` exactly on the two
recognized stale codes; on `VK_SUCCESS` it returns the acquired index, which
is below the swapchain image count by the native call's contract; on every
other result it fails with the fatal error. -/
theorem acquire_next_swapchain_image_protocol (result : Int)
    (outIdx imageCount : Nat)
    (hnative : result = VK_SUCCESS → outIdx < imageCount) :
    (acquire_next_swapchain_image result outIdx = Except.ok none ↔
      result = VK_ERROR_OUT_OF_DATE_KHR ∨ result = VK_SUBOPTIMAL_KHR) ∧
    (result = VK_SUCCESS →
      acquire_next_swapchain_image result outIdx = Except.ok (some outIdx) ∧
        outIdx < imageCount) ∧
    (¬ (result = VK_ERROR_OUT_OF_DATE_KHR ∨ result = VK_SUBOPTIMAL_KHR) →
      result ≠ VK_SUCCESS →
      acquire_next_swapchain_image result outIdx =
        Except.error "Failed to acquire next swapchain image") := by
  unfold acquire_next_swapchain_image
  by_cases hstale : result = VK_ERROR_OUT_OF_DATE_KHR ∨ result = VK_SUBOPTIMAL_KHR
  · have hns : result ≠ VK_SUCCESS := by
      rcases hstale with h | h <;> rw [h] <;> decide
    simp [hstale, hns]
  · by_cases hs : result = VK_SUCCESS
    · simp [hstale, hs, hnative hs]
      decide
    · simp [hstale, hs]

/-- C3 witness: the protocol at a successful acquire of image 0 on a
two-image chain. -/
theorem acquire_next_swapchain_image_protocol_witness :
    acquire_next_swapchain_image 0 0 = Except.ok (some 0) ∧ 0 < 2 :=
  (acquire_next_swapchain_image_protocol 0 0 2 (fun _ => by decide)).2.1
    (by decide)

/-- C4: `submit_present_image_cmd` returns `false` exactly on the two
recognized stale codes, returns `true` exactly on `VK_SUCCESS`, and fails
with the fatal error exactly on every other result code. -/
theorem submit_present_image_cmd_protocol (result : Int) :
    (submit_present_image_cmd result = Except.ok false ↔
      result = VK_ERROR_OUT_OF_DATE_KHR ∨ result = VK_SUBOPTIMAL_KHR) ∧
    (submit_present_image_cmd result = Except.ok true ↔
      result = VK_SUCCESS) ∧
    (submit_present_image_cmd result = Except.error "Failed to present image" ↔
      ¬ (result = VK_ERROR_OUT_OF_DATE_KHR ∨ result = VK_SUBOPTIMAL_KHR) ∧
        result ≠ VK_SUCCESS) := by
  unfold submit_present_image_cmd
  by_cases hstale : result = VK_ERROR_OUT_OF_DATE_KHR ∨ result = VK_SUBOPTIMAL_KHR
  · have hns : result ≠ VK_SUCCESS := by
      rcases hstale with h | h <;> rw [h] <;> decide
    simp [hstale, hns]
  · by_cases hs : result = VK_SUCCESS
    · subst hs
      have h1 : VK_SUCCESS ≠ VK_ERROR_OUT_OF_DATE_KHR := by decide
      have h2 : VK_SUCCESS ≠ VK_SUBOPTIMAL_KHR := by decide
      simp [h1, h2]
    · simp [hstale, hs]

/-- C10: the maximum-reduction sizing the shared queue-priority array, and
with it the whole of `create_device_and_queues`, is defined exactly when the
request span is non-empty; the undefined empty-maximum branch is unreachable
under the non-emptiness precondition. -/
theorem create_device_and_queues_defined_iff (requests : List (Nat × Nat)) :
    ((requests.map Prod.snd).max?.isSome ↔ requests ≠ []) ∧
    ((create_device_and_queues requests).isSome ↔ requests ≠ []) := by
  cases requests with
  | nil => simp [create_device_and_queues, List.max?]
  | cons fc rest => simp [create_device_and_queues, List.max?]

/-! ### Device-selection lemmas -/

theorem mem_of_getLast?_eq_some {α : Type} {l : List α} {a : α}
    (h : l.getLast? = some a) : a ∈ l := by
  obtain ⟨hne, rfl⟩ := List.mem_getLast?_eq_getLast h
  exact List.getLast_mem hne

theorem mem_insertCandidateAsc {d c : Candidate} {l : List Candidate} :
    d ∈ insertCandidateAsc c l ↔ d = c ∨ d ∈ l := by
  induction l with
  | nil => simp [insertCandidateAsc]
  | cons e es ih =>
    unfold insertCandidateAsc
    split_ifs
    · simp
    · simp only [List.mem_cons, ih]
      tauto

theorem mem_sortCandidates {d : Candidate} {l : List Candidate} :
    d ∈ sortCandidates l ↔ d ∈ l := by
  induction l with
  | nil => simp [sortCandidates]
  | cons c cs ih =>
    simp only [sortCandidates, List.foldr_cons, mem_insertCandidateAsc,
      List.mem_cons]
    rw [show cs.foldr insertCandidateAsc [] = sortCandidates cs from rfl, ih]

theorem insertCandidateAsc_of_le {c : Candidate} {l : List Candidate}
    (h : ∀ d ∈ l.head?, c.score ≤ d.score) :
    insertCandidateAsc c l = c :: l := by
  cases l with
  | nil => rfl
  | cons d ds => exact if_pos (h d rfl)

theorem insertCandidateAsc_append_of_lt {c : Candidate}
    {pre rest : List Candidate} (h : ∀ z ∈ pre, z.score < c.score) :
    insertCandidateAsc c (pre ++ rest) = pre ++ insertCandidateAsc c rest := by
  induction pre with
  | nil => rfl
  | cons z zs ih =>
    have hz : ¬ c.score ≤ z.score :=
      not_le.mpr (h z (List.mem_cons_self z zs))
    simp only [List.cons_append, insertCandidateAsc, if_neg hz, List.append_eq]
    rw [ih (fun z' hz' => h z' (List.mem_cons_of_mem z hz'))]

/-- On a candidate vector whose scores are all 0 or 1 the stable ascending
sort is the zero-scored candidates followed by the one-scored candidates,
each group in enumeration order. -/
theorem sortCandidates_binary {cs : List Candidate}
    (h : ∀ c ∈ cs, c.score = 0 ∨ c.score = 1) :
    sortCandidates cs =
      cs.filter (fun c => c.score == 0) ++ cs.filter (fun c => c.score == 1) := by
  induction cs with
  | nil => rfl
  | cons c cs ih =>
    have hcs : ∀ c' ∈ cs, c'.score = 0 ∨ c'.score = 1 :=
      fun c' hc' => h c' (List.mem_cons_of_mem c hc')
    have hstep : sortCandidates (c :: cs) = insertCandidateAsc c (sortCandidates cs) :=
      rfl
    rcases h c (List.mem_cons_self c cs) with h0 | h1
    · rw [hstep, ih hcs,
        insertCandidateAsc_of_le (fun d _ => h0 ▸ Nat.zero_le d.score),
        List.filter_cons_of_pos (by simp [h0]),
        List.filter_cons_of_neg (by simp [h0]), List.cons_append]
    · have hzeros : ∀ z ∈ cs.filter (fun c => c.score == 0), z.score < c.score := by
        intro z hz
        have := (List.mem_filter.mp hz).2
        simp only [beq_iff_eq] at this
        omega
      have hones : ∀ d ∈ (cs.filter (fun c => c.score == 1)).head?, c.score ≤ d.score := by
        intro d hd
        have := (List.mem_filter.mp (List.mem_of_mem_head? hd)).2
        simp only [beq_iff_eq] at this
        omega
      rw [hstep, ih hcs, insertCandidateAsc_append_of_lt hzeros,
        insertCandidateAsc_of_le hones,
        List.filter_cons_of_neg (by simp [h1]),
        List.filter_cons_of_pos (by simp [h1])]

/-- Characterization of a successful per-device filtering step
(`setup.cpp:649-678`). -/
theorem candidateOfDevice_spec {req : List String} {rq rm : Nat} {rs : Bool}
    {pd : PhysicalDevice} {c : Candidate}
    (h : candidateOfDevice req rq rm rs pd = some c) :
    c.dev = pd ∧
    c.score =
      (if pd.deviceType = VK_PHYSICAL_DEVICE_TYPE_DISCRETE_GPU then 1 else 0) ∧
    (setOfNames req).length ≤
      (filter_available_device_extensions req pd.extensionNames).length ∧
    (∃ rest, filter_available_queue_families pd rq rs = c.queueFamily :: rest) ∧
    filter_available_memory_types pd rm ≠ [] := by
  simp only [candidateOfDevice] at h
  by_cases hlen : (filter_available_device_extensions req pd.extensionNames).length <
      (setOfNames req).length
  · rw [if_pos hlen] at h
    exact absurd h (by simp)
  · rw [if_neg hlen] at h
    rcases hq : filter_available_queue_families pd rq rs with _ | ⟨q, rest⟩ <;>
      rw [hq] at h <;> simp only at h
    · exact absurd h (by simp)
    · by_cases hmem : (filter_available_memory_types pd rm).isEmpty
      · rw [if_pos hmem] at h
        exact absurd h (by simp)
      · rw [if_neg hmem] at h
        have hc := Option.some.inj h
        subst hc
        exact ⟨rfl, rfl, not_lt.mp hlen, ⟨rest, rfl⟩,
          by simpa [List.isEmpty_iff] using hmem⟩

/-- When the intersection with the available set is at least as large as the
required set, every required name is available (`setup.cpp:660-661`). -/
theorem required_subset_of_length_le {desired available : List String}
    (h : (setOfNames desired).length ≤
      (filter_available_device_extensions desired available).length) :
    ∀ e ∈ desired, e ∈ available := by
  intro e he
  by_contra hna
  have heD : e ∈ setOfNames desired := mem_setOfNames.mpr he
  have hDne : setOfNames desired ≠ [] := by
    intro hnil
    rw [hnil] at heD
    exact absurd heD (List.not_mem_nil e)
  have hsub : filter_available_device_extensions desired available ⊆
      (setOfNames desired).erase e := by
    intro x hx
    rcases mem_filter_available_device_extensions.mp hx with ⟨hxd, hxa⟩
    refine ((nodup_setOfNames desired).mem_erase_iff).mpr ⟨?_, mem_setOfNames.mpr hxd⟩
    rintro rfl
    exact hna hxa
  have hnd : (filter_available_device_extensions desired available).Nodup := by
    unfold filter_available_device_extensions
    rw [if_neg hDne]
    exact (nodup_setOfNames available).filter _
  have hlen := (List.subperm_of_subset hnd hsub).length_le
  rw [List.length_erase_of_mem heD] at hlen
  have hpos : 0 < (setOfNames desired).length := List.length_pos.mpr hDne
  omega

/-- Membership in the filtered queue-family index list
(`setup.cpp:769-807`). -/
theorem mem_filter_available_queue_families {pd : PhysicalDevice}
    {rq : Nat} {rs : Bool} {q : Nat}
    (h : q ∈ filter_available_queue_families pd rq rs) :
    q < pd.queueFamilies.length ∧
    ((pd.queueFamilies.getD q default).queueFlags &&& rq) = rq ∧
    (rs = true → (pd.queueFamilies.getD q default).presentSupport = true) := by
  unfold filter_available_queue_families at h
  rcases List.mem_filter.mp h with ⟨h1, h2⟩
  rcases List.mem_filter.mp h1 with ⟨hr, hflags⟩
  refine ⟨List.mem_range.mp hr, of_decide_eq_true hflags, fun hrs => ?_⟩
  rw [hrs] at h2
  simpa using h2

/-- A non-empty filtered memory-type list yields a memory type with all
required flags (`setup.cpp:809-835`). -/
theorem memory_type_of_filter_ne_nil {pd : PhysicalDevice} {rm : Nat}
    (h : filter_available_memory_types pd rm ≠ []) :
    ∃ i < pd.memoryTypes.length, (pd.memoryTypes.getD i 0 &&& rm) = rm := by
  rcases List.exists_mem_of_ne_nil _ h with ⟨i, hi⟩
  unfold filter_available_memory_types at hi
  rcases List.mem_filter.mp hi with ⟨hr, hflags⟩
  exact ⟨i, List.mem_range.mp hr, of_decide_eq_true hflags⟩

theorem select_physical_device_eq (pds : List PhysicalDevice)
    (req : List String) (rq rm : Nat) (rs : Bool) :
    select_physical_device pds req rq rm rs =
      match (sortCandidates (selectionCandidates pds req rq rm rs)).getLast? with
      | none => none
      | some c => some (c.dev, c.queueFamily) :=
  rfl

/-- The score of every surviving candidate is 0 or 1. -/
theorem selectionCandidates_score_binary {pds : List PhysicalDevice}
    {req : List String} {rq rm : Nat} {rs : Bool} :
    ∀ c ∈ selectionCandidates pds req rq rm rs, c.score = 0 ∨ c.score = 1 := by
  intro c hc
  rcases List.mem_filterMap.mp hc with ⟨pd, _, hpd⟩
  rcases candidateOfDevice_spec hpd with ⟨_, hscore, _⟩
  rw [hscore]
  split_ifs <;> simp

/-- C1: whenever `select_physical_device` returns a device and queue family
index, every requirement is met by them: all required extensions are
available on the device, the returned queue family exists, has all required
capability flags and (when a surface is required) presentation support, and
some memory type carries all required memory flags.  Moreover, when exactly
two candidates survive filtering and exactly one of them is a discrete GPU,
that discrete GPU is the device returned. -/
theorem select_physical_device_sound (pds : List PhysicalDevice)
    (req : List String) (rq rm : Nat) (rs : Bool) :
    (∀ dev q, select_physical_device pds req rq rm rs = some (dev, q) →
      dev ∈ pds ∧
      (∀ e ∈ req, e ∈ dev.extensionNames) ∧
      q < dev.queueFamilies.length ∧
      ((dev.queueFamilies.getD q default).queueFlags &&& rq) = rq ∧
      (rs = true → (dev.queueFamilies.getD q default).presentSupport = true) ∧
      ∃ i < dev.memoryTypes.length, (dev.memoryTypes.getD i 0 &&& rm) = rm) ∧
    (∀ a b, survivingDevices pds req rq rm rs = [a, b] →
      (a.deviceType = VK_PHYSICAL_DEVICE_TYPE_DISCRETE_GPU ∧
          b.deviceType ≠ VK_PHYSICAL_DEVICE_TYPE_DISCRETE_GPU →
        (select_physical_device pds req rq rm rs).map Prod.fst = some a) ∧
      (a.deviceType ≠ VK_PHYSICAL_DEVICE_TYPE_DISCRETE_GPU ∧
          b.deviceType = VK_PHYSICAL_DEVICE_TYPE_DISCRETE_GPU →
        (select_physical_device pds req rq rm rs).map Prod.fst = some b)) := by
  constructor
  · intro dev q hsel
    rw [select_physical_device_eq] at hsel
    cases hg : (sortCandidates (selectionCandidates pds req rq rm rs)).getLast? with
    | none =>
      rw [hg] at hsel
      exact absurd hsel (by simp)
    | some c =>
      rw [hg] at hsel
      simp only [Option.some.injEq, Prod.mk.injEq] at hsel
      obtain ⟨hdev, hqf⟩ := hsel
      subst hdev
      subst hqf
      have hc : c ∈ selectionCandidates pds req rq rm rs :=
        mem_sortCandidates.mp (mem_of_getLast?_eq_some hg)
      rcases List.mem_filterMap.mp hc with ⟨pd, hpdmem, hpd⟩
      rcases candidateOfDevice_spec hpd with
        ⟨hcd, _, hlen, ⟨rest, hfam⟩, hmemne⟩
      have hqmem : c.queueFamily ∈ filter_available_queue_families pd rq rs := by
        rw [hfam]
        exact List.mem_cons_self _ _
      rcases mem_filter_available_queue_families hqmem with ⟨hqlt, hflags, hpres⟩
      rw [hcd]
      exact ⟨hpdmem, required_subset_of_length_le hlen, hqlt, hflags, hpres,
        memory_type_of_filter_ne_nil hmemne⟩
  · intro a b hsurv
    unfold survivingDevices at hsurv
    cases hcands : selectionCandidates pds req rq rm rs with
    | nil =>
      rw [hcands] at hsurv
      exact absurd hsurv (by simp)
    | cons c1 tl =>
      cases tl with
      | nil =>
        rw [hcands] at hsurv
        exact absurd hsurv (by simp)
      | cons c2 tl2 =>
        cases tl2 with
        | cons c3 tl3 =>
          rw [hcands] at hsurv
          have := congrArg List.length hsurv
          simp at this
        | nil =>
          rw [hcands] at hsurv
          simp only [List.map_cons, List.map_nil, List.cons.injEq,
            and_true] at hsurv
          obtain ⟨h1, h2⟩ := hsurv
          have hc1 : c1 ∈ selectionCandidates pds req rq rm rs := by
            rw [hcands]
            exact List.mem_cons_self _ _
          have hc2 : c2 ∈ selectionCandidates pds req rq rm rs := by
            rw [hcands]
            exact List.mem_cons_of_mem _ (List.mem_cons_self _ _)
          rcases List.mem_filterMap.mp hc1 with ⟨pd1, _, hpd1⟩
          rcases List.mem_filterMap.mp hc2 with ⟨pd2, _, hpd2⟩
          rcases candidateOfDevice_spec hpd1 with ⟨hcd1, hs1, _⟩
          rcases candidateOfDevice_spec hpd2 with ⟨hcd2, hs2, _⟩
          rw [← hcd1, h1] at hs1
          rw [← hcd2, h2] at hs2
          constructor
          · rintro ⟨hadisc, hbnot⟩
            rw [if_pos hadisc] at hs1
            rw [if_neg hbnot] at hs2
            have hsort : sortCandidates [c1, c2] = [c2, c1] := by
              simp [sortCandidates, insertCandidateAsc, hs1, hs2]
            rw [select_physical_device_eq, hcands, hsort]
            simp [List.getLast?, h1]
          · rintro ⟨hanot, hbdisc⟩
            rw [if_neg hanot] at hs1
            rw [if_pos hbdisc] at hs2
            have hsort : sortCandidates [c1, c2] = [c1, c2] := by
              simp [sortCandidates, insertCandidateAsc, hs1, hs2]
            rw [select_physical_device_eq, hcands, hsort]
            simp [List.getLast?, h2]

/-- C1 witness: the requirement conclusions and the discrete-GPU preference
at concrete device lists. -/
theorem select_physical_device_sound_witness :
    (∃ i < discreteDevA.memoryTypes.length,
      (discreteDevA.memoryTypes.getD i 0 &&& 0) = 0) ∧
    (select_physical_device [discreteDevA, integratedDevC] [] 0 0 false).map
      Prod.fst = some discreteDevA :=
  ⟨((select_physical_device_sound [discreteDevA] [] 0 0 false).1
      discreteDevA 0 (by decide)).2.2.2.2.2,
    ((select_physical_device_sound [discreteDevA, integratedDevC] [] 0 0
        false).2 discreteDevA integratedDevC (by decide)).1
      ⟨by decide, by decide⟩⟩

/-- C5 (amended): each surviving candidate is scored 1 if its device type is
discrete GPU and 0 otherwise and carries the first matching queue family
index; the returned candidate is the highest-scoring one, with ties broken
by reverse enumeration order: the last discrete GPU in enumeration order
or, when no discrete GPU survives, the last surviving candidate overall. -/
theorem select_physical_device_scoring (pds : List PhysicalDevice)
    (req : List String) (rq rm : Nat) (rs : Bool) :
    (∀ c ∈ selectionCandidates pds req rq rm rs,
      c.score =
        (if c.dev.deviceType = VK_PHYSICAL_DEVICE_TYPE_DISCRETE_GPU then 1
          else 0) ∧
      ∃ rest, filter_available_queue_families c.dev rq rs =
        c.queueFamily :: rest) ∧
    (select_physical_device pds req rq rm rs =
      match ((selectionCandidates pds req rq rm rs).filter
          (fun c => c.score == 1)).getLast? with
      | some c => some (c.dev, c.queueFamily)
      | none =>
        match (selectionCandidates pds req rq rm rs).getLast? with
        | some c => some (c.dev, c.queueFamily)
        | none => none) := by
  constructor
  · intro c hc
    rcases List.mem_filterMap.mp hc with ⟨pd, _, hpd⟩
    rcases candidateOfDevice_spec hpd with ⟨hcd, hscore, _, hfam, _⟩
    rw [← hcd] at hscore hfam
    exact ⟨hscore, hfam⟩
  · have hbin := @selectionCandidates_score_binary pds req rq rm rs
    rw [select_physical_device_eq, sortCandidates_binary hbin,
      List.getLast?_append]
    cases ho : ((selectionCandidates pds req rq rm rs).filter
        (fun c => c.score == 1)).getLast? with
    | some c => rfl
    | none =>
      have hones : (selectionCandidates pds req rq rm rs).filter
          (fun c => c.score == 1) = [] := List.getLast?_eq_none.mp ho
      have hzeros : (selectionCandidates pds req rq rm rs).filter
          (fun c => c.score == 0) = selectionCandidates pds req rq rm rs := by
        rw [List.filter_eq_self]
        intro c hc
        rcases hbin c hc with h0 | h1
        · show (c.score == 0) = true
          rw [h0]
          rfl
        · exfalso
          have hmem1 : c ∈ (selectionCandidates pds req rq rm rs).filter
              (fun c => c.score == 1) :=
            List.mem_filter.mpr ⟨hc, by rw [h1]; rfl⟩
          rw [hones] at hmem1
          exact absurd hmem1 (List.not_mem_nil c)
      rw [hzeros]
      cases (selectionCandidates pds req rq rm rs).getLast? with
      | none => rfl
      | some d => rfl

/-- C5 witness: the scoring formula at a concrete surviving candidate, and
the selection equality at a concrete device list. -/
theorem select_physical_device_scoring_witness :
    (Candidate.mk 1 discreteDevA 0).score =
      (if discreteDevA.deviceType = VK_PHYSICAL_DEVICE_TYPE_DISCRETE_GPU
        then 1 else 0) ∧
    (∃ rest,
      filter_available_queue_families discreteDevA 0 false = 0 :: rest) :=
  (select_physical_device_scoring [discreteDevA] [] 0 0 false).1
    (Candidate.mk 1 discreteDevA 0) (by decide)

/-- C5 counterexample: with two surviving discrete GPUs, the device returned
is the second (last) in enumeration order, not the first; the ascending sort
followed by taking the back of the vector breaks ties toward the last
candidate. -/
theorem select_physical_device_tie_not_first :
    survivingDevices [discreteDevA, discreteDevB] [] 0 0 false =
      [discreteDevA, discreteDevB] ∧
    discreteDevA.deviceType = VK_PHYSICAL_DEVICE_TYPE_DISCRETE_GPU ∧
    discreteDevB.deviceType = VK_PHYSICAL_DEVICE_TYPE_DISCRETE_GPU ∧
    (select_physical_device [discreteDevA, discreteDevB] [] 0 0 false).map
      Prod.fst = some discreteDevB ∧
    discreteDevB ≠ discreteDevA := by
  decide

/-! ### Queue-map lemmas (`setup.cpp:567-578`) -/

theorem lookup_eq_none_of_not_mem_keys {g : Nat} {m : List (Nat × List VkQueue)}
    (h : g ∉ m.map Prod.fst) : m.lookup g = none := by
  induction m with
  | nil => rfl
  | cons e rest ih =>
    simp only [List.map_cons, List.mem_cons, not_or] at h
    obtain ⟨hne, hrest⟩ := h
    simp only [List.lookup, beq_eq_false_iff_ne.mpr hne, ih hrest]

theorem mapAppendQueues_keys {f : Nat} {qs : List VkQueue}
    {m : List (Nat × List VkQueue)} {k : Nat} :
    k ∈ (mapAppendQueues f qs m).map Prod.fst ↔
      k = f ∨ k ∈ m.map Prod.fst := by
  induction m with
  | nil => simp [mapAppendQueues]
  | cons e rest ih =>
    unfold mapAppendQueues
    split_ifs with h1 h2
    · simp
    · subst h2
      simp
    · simp only [List.map_cons, List.mem_cons, ih]
      tauto

theorem mapAppendQueues_keys_nodup {f : Nat} {qs : List VkQueue}
    {m : List (Nat × List VkQueue)} (hnd : (m.map Prod.fst).Nodup)
    (hnotin : f ∉ m.map Prod.fst) :
    ((mapAppendQueues f qs m).map Prod.fst).Nodup := by
  induction m with
  | nil => simp [mapAppendQueues]
  | cons e rest ih =>
    rcases e with ⟨g, v⟩
    simp only [List.map_cons, List.nodup_cons] at hnd
    obtain ⟨hehd, hrest⟩ := hnd
    simp only [List.map_cons, List.mem_cons, not_or] at hnotin
    obtain ⟨hfe, hfrest⟩ := hnotin
    unfold mapAppendQueues
    split_ifs with h1
    · refine List.nodup_cons.mpr ⟨?_, List.nodup_cons.mpr ⟨hehd, hrest⟩⟩
      simp only [List.map_cons, List.mem_cons, not_or]
      exact ⟨hfe, hfrest⟩
    · refine List.nodup_cons.mpr ⟨?_, ih hrest hfrest⟩
      rw [mapAppendQueues_keys]
      rintro (rfl | hmem)
      · exact hfe rfl
      · exact hehd hmem

theorem mapAppendQueues_lookup_self {f : Nat} {qs : List VkQueue}
    {m : List (Nat × List VkQueue)} (hnone : m.lookup f = none) :
    (mapAppendQueues f qs m).lookup f = some qs := by
  induction m with
  | nil => simp [mapAppendQueues, List.lookup]
  | cons e rest ih =>
    rcases e with ⟨g, v⟩
    by_cases hfg : f = g
    · subst hfg
      simp [List.lookup] at hnone
    · have hbeq : (f == g) = false := beq_eq_false_iff_ne.mpr hfg
      simp only [List.lookup, hbeq] at hnone
      unfold mapAppendQueues
      split_ifs with h1
      · simp [List.lookup]
      · simp only [List.lookup, hbeq]
        exact ih hnone

theorem mapAppendQueues_lookup_other {f g : Nat} {qs : List VkQueue}
    {m : List (Nat × List VkQueue)} (hne : g ≠ f) :
    (mapAppendQueues f qs m).lookup g = m.lookup g := by
  induction m with
  | nil => simp [mapAppendQueues, List.lookup, beq_eq_false_iff_ne.mpr hne]
  | cons e rest ih =>
    rcases e with ⟨k, v⟩
    unfold mapAppendQueues
    split_ifs with h1 h2
    · simp only [List.lookup, beq_eq_false_iff_ne.mpr hne]
    · subst h2
      simp only [List.lookup, beq_eq_false_iff_ne.mpr hne]
    · by_cases hgk : g = k
      · subst hgk
        simp only [List.lookup, beq_self_eq_true]
      · simp only [List.lookup, beq_eq_false_iff_ne.mpr hgk]
        exact ih

/-- Behaviour of the map-construction fold over a request span with
pairwise-distinct families, all fresh relative to the accumulated map. -/
theorem buildQueueMapFrom_spec (requests : List (Nat × Nat)) :
    ∀ m : List (Nat × List VkQueue),
    (∀ fc ∈ requests, fc.1 ∉ m.map Prod.fst) →
    ((requests.map Prod.fst).Nodup) →
    ((m.map Prod.fst).Nodup) →
    (((buildQueueMapFrom requests m).map Prod.fst).Nodup) ∧
    (∀ fc ∈ requests, (buildQueueMapFrom requests m).lookup fc.1 =
      some (queuesOfRequest fc.1 fc.2)) ∧
    (∀ g, g ∉ requests.map Prod.fst →
      (buildQueueMapFrom requests m).lookup g = m.lookup g) ∧
    (∀ k, k ∈ (buildQueueMapFrom requests m).map Prod.fst ↔
      k ∈ requests.map Prod.fst ∨ k ∈ m.map Prod.fst) := by
  induction requests with
  | nil =>
    intro m _ _ hmnd
    exact ⟨hmnd, by simp, fun g _ => rfl, by simp [buildQueueMapFrom]⟩
  | cons fc rest ih =>
    intro m hdisj hnd hmnd
    rcases fc with ⟨f, c⟩
    have hstep : buildQueueMapFrom ((f, c) :: rest) m =
        buildQueueMapFrom rest (mapAppendQueues f (queuesOfRequest f c) m) :=
      rfl
    have hfm : f ∉ m.map Prod.fst := hdisj (f, c) (List.mem_cons_self _ _)
    simp only [List.map_cons, List.nodup_cons] at hnd
    obtain ⟨hfrest, hndrest⟩ := hnd
    have hdisj' : ∀ fc' ∈ rest,
        fc'.1 ∉ (mapAppendQueues f (queuesOfRequest f c) m).map Prod.fst := by
      intro fc' hfc'
      rw [mapAppendQueues_keys]
      rintro (hf | hmem)
      · exact hfrest (hf ▸ List.mem_map_of_mem Prod.fst hfc')
      · exact hdisj fc' (List.mem_cons_of_mem _ hfc') hmem
    have hmnd' := @mapAppendQueues_keys_nodup f (queuesOfRequest f c) m
      hmnd hfm
    obtain ⟨ihnd, ihlook, ihother, ihkeys⟩ := ih _ hdisj' hndrest hmnd'
    rw [hstep]
    refine ⟨ihnd, ?_, ?_, ?_⟩
    · intro fc' hfc'
      rcases List.mem_cons.mp hfc' with rfl | hfc'
      · rw [ihother f hfrest]
        exact mapAppendQueues_lookup_self (lookup_eq_none_of_not_mem_keys hfm)
      · exact ihlook fc' hfc'
    · intro g hg
      simp only [List.map_cons, List.mem_cons, not_or] at hg
      obtain ⟨hgf, hgrest⟩ := hg
      rw [ihother g hgrest, mapAppendQueues_lookup_other hgf]
    · intro k
      rw [ihkeys, mapAppendQueues_keys]
      simp only [List.map_cons, List.mem_cons]
      tauto

/-- C6 (amended): for every non-empty request list with pairwise-distinct
queue families, `create_device_and_queues` builds one shared queue-priority
array sized by the maximum requested count with every element 1.0, hands the
same array to every `VkDeviceQueueCreateInfo`, and returns a map with
exactly one entry per requested family, each holding exactly that request's
count of resolved queue handles in request order. -/
theorem create_device_and_queues_queue_plan (requests : List (Nat × Nat))
    (hnd : (requests.map Prod.fst).Nodup)
    (prios : List ℚ) (infos : List DeviceQueueCreateInfo)
    (qmap : List (Nat × List VkQueue))
    (h : create_device_and_queues requests = some (prios, infos, qmap)) :
    (requests.map Prod.snd).max? = some prios.length ∧
    (∀ p ∈ prios, p = 1) ∧
    (∀ info ∈ infos, info.queuePriorities = prios) ∧
    infos.map (fun i => (i.queueFamilyIndex, i.queueCount)) = requests ∧
    ((qmap.map Prod.fst).Nodup) ∧
    (∀ f, f ∈ qmap.map Prod.fst ↔ f ∈ requests.map Prod.fst) ∧
    (∀ fc ∈ requests, qmap.lookup fc.1 =
      some ((List.range fc.2).map (fun idx => VkQueue.mk fc.1 idx))) := by
  unfold create_device_and_queues at h
  cases hmax : (requests.map Prod.snd).max? with
  | none =>
    rw [hmax] at h
    exact absurd h (by simp)
  | some maxCount =>
    rw [hmax] at h
    simp only [Option.some.injEq, Prod.mk.injEq] at h
    obtain ⟨hprios, hinfos, hqmap⟩ := h
    subst hprios
    subst hinfos
    subst hqmap
    obtain ⟨hnodup, hlook, _, hkeys⟩ :=
      buildQueueMapFrom_spec requests [] (by simp) hnd List.nodup_nil
    refine ⟨by rw [List.length_replicate],
      fun p hp => List.eq_of_mem_replicate hp,
      fun info hinfo => ?_, ?_, by exact hnodup, fun f => ?_, fun fc hfc => ?_⟩
    · rcases List.mem_map.mp hinfo with ⟨fc, _, rfl⟩
      rfl
    · rw [List.map_map]
      exact List.map_id'' (fun fc => rfl) requests
    · show f ∈ (buildQueueMapFrom requests []).map Prod.fst ↔ _
      rw [hkeys f]
      simp
    · show (buildQueueMapFrom requests []).lookup fc.1 = _
      exact hlook fc hfc

/-- C6 witness: the queue plan at a concrete two-family request list. -/
theorem create_device_and_queues_queue_plan_witness :
    ([(1, 2), (0, 1)].map Prod.snd).max? =
      some ([(1 : ℚ), 1].length) ∧
    (∀ fc ∈ [(1, 2), (0, 1)],
      [(0, [VkQueue.mk 0 0]),
        (1, [VkQueue.mk 1 0, VkQueue.mk 1 1])].lookup fc.1 =
        some ((List.range fc.2).map (fun idx => VkQueue.mk fc.1 idx))) :=
  ⟨(create_device_and_queues_queue_plan [(1, 2), (0, 1)] (by decide)
      [1, 1]
      [DeviceQueueCreateInfo.mk 1 2 [1, 1], DeviceQueueCreateInfo.mk 0 1 [1, 1]]
      [(0, [VkQueue.mk 0 0]), (1, [VkQueue.mk 1 0, VkQueue.mk 1 1])]
      (by decide)).1,
    (create_device_and_queues_queue_plan [(1, 2), (0, 1)] (by decide)
      [1, 1]
      [DeviceQueueCreateInfo.mk 1 2 [1, 1], DeviceQueueCreateInfo.mk 0 1 [1, 1]]
      [(0, [VkQueue.mk 0 0]), (1, [VkQueue.mk 1 0, VkQueue.mk 1 1])]
      (by decide)).2.2.2.2.2.2⟩

/-- C6 counterexample: with the same queue family requested twice, the map
accumulates both requests into a single entry holding two (identical) queue
handles, not the single request's one handle: the claim fails for request
lists with repeated families. -/
theorem create_device_and_queues_duplicate_family :
    buildQueueMap [(0, 1), (0, 1)] =
      [(0, [VkQueue.mk 0 0, VkQueue.mk 0 0])] ∧
    (buildQueueMap [(0, 1), (0, 1)]).lookup 0 ≠
      some (queuesOfRequest 0 1) := by
  decide

/-! ### Reference-counting lemmas for the wrapper chain (`types.cpp`) -/

theorem getD_set_self {l : List Nat} {i a : Nat} (h : i < l.length) :
    (l.set i a).getD i 0 = a := by
  rw [List.getD_eq_getElem?_getD, List.getElem?_set_self h]
  rfl

theorem getD_set_other {l : List Nat} {i j a : Nat} (h : i ≠ j) :
    (l.set i a).getD j 0 = l.getD j 0 := by
  rw [List.getD_eq_getElem?_getD, List.getElem?_set_ne h,
    ← List.getD_eq_getElem?_getD]

theorem sum_excluded_append {deps : Nat → List Nat} {log : List Nat}
    {i j : Nat} (hnotin : i ∉ log) :
    ∀ L : List Nat, L.Nodup → i ∈ L →
    (L.map fun k => if k ∈ log then 0 else (deps k).count j).sum =
      (L.map fun k => if k ∈ log ++ [i] then 0 else (deps k).count j).sum +
        (deps i).count j := by
  intro L
  induction L with
  | nil =>
    intro _ h
    exact absurd h (List.not_mem_nil i)
  | cons k L' ih =>
    intro hnd hmem
    rcases List.nodup_cons.mp hnd with ⟨hkL, hndL⟩
    rcases List.mem_cons.mp hmem with rfl | hmem'
    · have hL'eq : (L'.map fun k => if k ∈ log ++ [i] then 0
          else (deps k).count j) =
          (L'.map fun k => if k ∈ log then 0 else (deps k).count j) := by
        apply List.map_congr_left
        intro a ha
        have hai : ¬ (a = i) := fun h => hkL (h ▸ ha)
        simp [List.mem_append, hai]
      simp only [List.map_cons, List.sum_cons, if_neg hnotin,
        if_pos (by simp : i ∈ log ++ [i]), hL'eq]
      omega
    · have hki : ¬ (k ∈ log ++ [i]) ↔ ¬ (k ∈ log) := by
        have : ¬ k = i := fun h => hkL (h ▸ hmem')
        simp [List.mem_append, this]
      simp only [List.map_cons, List.sum_cons]
      rw [ih hndL hmem', if_congr (not_iff_not.mp hki) rfl rfl]
      omega

theorem capturedRefs_append {deps : Nat → List Nat} {n : Nat} {log : List Nat}
    {i j : Nat} (hin : i < n) (hnotin : i ∉ log) :
    capturedRefs deps n log j =
      capturedRefs deps n (log ++ [i]) j + (deps i).count j :=
  sum_excluded_append hnotin (List.range n) (List.nodup_range n)
    (List.mem_range.mpr hin)

theorem capturedRefs_out {deps : Nat → List Nat} {n i : Nat}
    (hwf : DepsWf deps) (hn : n ≤ i) (log : List Nat) :
    capturedRefs deps n log i = 0 := by
  rw [capturedRefs, List.sum_eq_zero_iff]
  intro x hx
  rcases List.mem_map.mp hx with ⟨k, hk, rfl⟩
  split_ifs with h
  · rfl
  · rw [List.count_eq_zero]
    intro hmem
    have hik := hwf k i hmem
    have hkn := List.mem_range.mp hk
    omega

theorem no_live_dependent_of_capturedRefs_zero {deps : Nat → List Nat}
    {n : Nat} {log : List Nat} {i : Nat}
    (h : capturedRefs deps n log i = 0) {k : Nat} (hk : k < n)
    (hkn : k ∉ log) : i ∉ deps k := by
  rw [capturedRefs, List.sum_eq_zero_iff] at h
  have := h (if k ∈ log then 0 else (deps k).count i)
    (List.mem_map.mpr ⟨k, List.mem_range.mpr hk, rfl⟩)
  rw [if_neg hkn] at this
  exact List.count_eq_zero.mp this

theorem RcInv_congr {deps : Nat → List Nat} {n : Nat} {s : RcState}
    {e e' : Nat → Nat} (h : RcInv deps n s e) (he : ∀ j, e j = e' j) :
    RcInv deps n s e' :=
  ⟨h.counts_len, fun i => (he i) ▸ h.counts_eq i, h.log_nodup, h.log_lt,
    h.log_ord, fun i hi => (he i) ▸ h.log_ext i hi⟩

/-- Releasing one available external reference preserves the accounting
invariant, consuming exactly that reference. -/
theorem releaseRef_inv {deps : Nat → List Nat} {n : Nat} (hwf : DepsWf deps) :
    ∀ fuel : Nat, ∀ s ext i, i < fuel → fuel ≤ n → RcInv deps n s ext →
      1 ≤ ext i →
      RcInv deps n (releaseRef deps fuel s i)
        (fun j => if j = i then ext i - 1 else ext j) := by
  intro fuel
  induction fuel with
  | zero =>
    intro s ext i h
    omega
  | succ f ih =>
    have ihList : ∀ l : List Nat, ∀ s ext, (∀ j ∈ l, j < f) → f ≤ n →
        RcInv deps n s ext → (∀ j, l.count j ≤ ext j) →
        RcInv deps n (l.foldl (releaseRef deps f) s)
          (fun j => ext j - l.count j) := by
      intro l
      induction l with
      | nil =>
        intro s ext _ _ hinv _
        exact RcInv_congr hinv (fun j => by simp)
      | cons j0 l' ihl =>
        intro s ext hlt hfn hinv hcnt
        have h1 : 1 ≤ ext j0 := by
          have := hcnt j0
          rw [List.count_cons_self] at this
          omega
        have hs' := ih s ext j0 (hlt j0 (List.mem_cons_self _ _)) hfn hinv h1
        have hcnt' : ∀ j, l'.count j ≤
            (fun j => if j = j0 then ext j0 - 1 else ext j) j := by
          intro j
          show l'.count j ≤ if j = j0 then ext j0 - 1 else ext j
          by_cases hj : j = j0
          · subst hj
            have := hcnt j
            rw [List.count_cons_self] at this
            rw [if_pos rfl]
            omega
          · rw [if_neg hj]
            have := hcnt j
            rw [List.count_cons_of_ne hj] at this
            exact this
        have hres := ihl (releaseRef deps f s j0) _
          (fun j hj => hlt j (List.mem_cons_of_mem _ hj)) hfn hs' hcnt'
        apply RcInv_congr hres
        intro j
        by_cases hj : j = j0
        · subst hj
          have := hcnt j
          rw [List.count_cons_self] at this
          rw [if_pos rfl, List.count_cons_self]
          omega
        · rw [List.count_cons_of_ne hj, if_neg hj]
    intro s ext i hif hfn hinv hext
    obtain ⟨hlen, hcnt, hnd, hltg, hord, hext0⟩ := hinv
    have hin : i < n := lt_of_lt_of_le hif hfn
    have hinlog : i ∉ s.destroyLog := fun hm => by
      have := hext0 i hm
      omega
    have hceq := hcnt i
    have hstep : releaseRef deps (f + 1) s i =
        if s.counts.getD i 0 = 0 then s
        else if s.counts.getD i 0 = 1 then
          (deps i).foldl (releaseRef deps f)
            ⟨s.counts.set i 0, s.destroyLog ++ [i]⟩
        else ⟨s.counts.set i (s.counts.getD i 0 - 1), s.destroyLog⟩ := rfl
    rw [hstep, if_neg (by omega)]
    by_cases hc1 : s.counts.getD i 0 = 1
    · rw [if_pos hc1]
      have hext1 : ext i = 1 := by omega
      have hcap0 : capturedRefs deps n s.destroyLog i = 0 := by omega
      have hcnti : (deps i).count i = 0 := by
        rw [List.count_eq_zero]
        intro hmem
        exact lt_irrefl i (hwf i i hmem)
      have hinv1 : RcInv deps n ⟨s.counts.set i 0, s.destroyLog ++ [i]⟩
          (fun j => (if j = i then 0 else ext j) + (deps i).count j) := by
        refine ⟨?_, ?_, ?_, ?_, ?_, ?_⟩
        · simp [List.length_set, hlen]
        · intro j
          have happ := @capturedRefs_append deps n s.destroyLog i j hin hinlog
          show (s.counts.set i 0).getD j 0 =
            ((if j = i then 0 else ext j) + (deps i).count j) +
              capturedRefs deps n (s.destroyLog ++ [i]) j
          by_cases hj : j = i
          · subst hj
            rw [getD_set_self (by omega), if_pos rfl]
            omega
          · rw [getD_set_other (fun h => hj h.symm), if_neg hj]
            have := hcnt j
            omega
        · rw [List.nodup_append]
          exact ⟨hnd, List.nodup_singleton i,
            fun a ha hb => by
              rw [List.mem_singleton] at hb
              exact hinlog (hb ▸ ha)⟩
        · intro i' hi'
          rcases List.mem_append.mp hi' with h | h
          · exact hltg i' h
          · rw [List.mem_singleton] at h
            omega
        · intro i' hi' k hk hdep
          rcases List.mem_append.mp hi' with h | h
          · exact List.mem_append_left _ (hord i' h k hk hdep)
          · rw [List.mem_singleton] at h
            subst h
            by_cases hklog : k ∈ s.destroyLog
            · exact List.mem_append_left _ hklog
            · exact absurd hdep
                (no_live_dependent_of_capturedRefs_zero hcap0 hk hklog)
        · intro i' hi'
          rcases List.mem_append.mp hi' with h | h
          · have hne : ¬ (i' = i) := fun he => hinlog (he ▸ h)
            have hcnt0 : (deps i).count i' = 0 := by
              rw [List.count_eq_zero]
              intro hmem
              exact hinlog (hord i' h i hin hmem)
            rw [if_neg hne, hcnt0, hext0 i' h]
          · rw [List.mem_singleton] at h
            subst h
            rw [if_pos rfl, hcnti]
      have hres := ihList (deps i) _ _
        (fun j hj => by
          have := hwf i j hj
          omega)
        (by omega) hinv1
        (fun j => Nat.le_add_left _ _)
      apply RcInv_congr hres
      intro j
      by_cases hj : j = i
      · subst hj
        rw [if_pos rfl, if_pos rfl, hcnti, hext1]
      · rw [if_neg hj, if_neg hj]
        omega
    · rw [if_neg hc1]
      refine ⟨?_, ?_, hnd, hltg, hord, ?_⟩
      · simp [List.length_set, hlen]
      · intro j
        show (s.counts.set i (s.counts.getD i 0 - 1)).getD j 0 =
          (if j = i then ext i - 1 else ext j) +
            capturedRefs deps n s.destroyLog j
        by_cases hj : j = i
        · subst hj
          rw [getD_set_self (by omega), if_pos rfl]
          omega
        · rw [getD_set_other (fun h => hj h.symm), if_neg hj]
          have := hcnt j
          omega
      · intro i' hi'
        have hne : ¬ (i' = i) := fun he => hinlog (he ▸ hi')
        rw [if_neg hne]
        exact hext0 i' hi'

/-- Running a duplicate-free sequence of in-range client releases from an
invariant state preserves the invariant, consuming one external reference
per released wrapper. -/
theorem runReleases_inv {deps : Nat → List Nat} {n : Nat} (hwf : DepsWf deps) :
    ∀ ord : List Nat, ∀ s ext, (∀ i ∈ ord, i < n) → ord.Nodup →
      RcInv deps n s ext → (∀ i ∈ ord, 1 ≤ ext i) →
      RcInv deps n (runReleases deps n ord s)
        (fun j => if j ∈ ord then ext j - 1 else ext j) := by
  intro ord
  induction ord with
  | nil =>
    intro s ext _ _ hinv _
    exact RcInv_congr hinv (fun j => by simp)
  | cons i ord' ih =>
    intro s ext hbound hnd hinv hone
    rcases List.nodup_cons.mp hnd with ⟨hiord, hnd'⟩
    have hs' := releaseRef_inv hwf n s ext i
      (hbound i (List.mem_cons_self _ _)) (le_refl n) hinv
      (hone i (List.mem_cons_self _ _))
    have hone' : ∀ j ∈ ord',
        1 ≤ (fun j => if j = i then ext i - 1 else ext j) j := by
      intro j hj
      have hne : ¬ (j = i) := fun he => hiord (he ▸ hj)
      simp only [if_neg hne]
      exact hone j (List.mem_cons_of_mem _ hj)
    have hres := ih (releaseRef deps n s i) _
      (fun j hj => hbound j (List.mem_cons_of_mem _ hj)) hnd' hs' hone'
    apply RcInv_congr hres
    intro j
    by_cases hj : j = i
    · subst hj
      rw [if_neg hiord, if_pos rfl, if_pos (List.mem_cons_self j ord')]
    · by_cases hj' : j ∈ ord'
      · rw [if_pos hj', if_neg hj, if_pos (List.mem_cons_of_mem i hj')]
      · have hnc : ¬ (j ∈ i :: ord') := by
          rw [List.mem_cons]
          tauto
        rw [if_neg hj', if_neg hj, if_neg hnc]

/-- The freshly constructed chain satisfies the accounting invariant with
one external reference per object. -/
theorem initialRcState_inv {deps : Nat → List Nat} {n : Nat}
    (hwf : DepsWf deps) :
    RcInv deps n (initialRcState deps n)
      (fun i => if i < n then 1 else 0) := by
  refine ⟨by simp [initialRcState], ?_, by exact List.nodup_nil,
    fun i hi => absurd hi (List.not_mem_nil i),
    fun i hi => absurd hi (List.not_mem_nil i),
    fun i hi => absurd hi (List.not_mem_nil i)⟩
  intro i
  by_cases hi : i < n
  · show ((List.range n).map fun i => 1 + capturedRefs deps n [] i).getD i 0 = _
    rw [List.getD_eq_getElem?_getD, List.getElem?_map, List.getElem?_range hi,
      if_pos hi]
    rfl
  · show ((List.range n).map fun i => 1 + capturedRefs deps n [] i).getD i 0 = _
    rw [List.getD_eq_getElem?_getD,
      List.getElem?_eq_none
        (by simp only [List.length_map, List.length_range]; omega),
      if_neg hi,
      capturedRefs_out hwf (by omega) ((initialRcState deps n).destroyLog)]
    rfl

/-- The `types.cpp` capture graph is well-formed: every wrapper captures
only earlier-created wrappers. -/
theorem vulkanDeps_wf : DepsWf vulkanDeps := by
  intro k
  by_cases hk : k < 13
  · interval_cases k <;> decide
  · intro j hj
    rw [show vulkanDeps k = (vulkanDepsList.getD k []) from rfl,
      List.getD_eq_getElem?_getD,
      List.getElem?_eq_none (by simp [vulkanDepsList]; omega)] at hj
    exact absurd hj (by simp)

/-- C8: for every order in which the client can release its wrapper handles
(each at most once), the resulting native destroy log of the `types.cpp`
wrapper chain contains each wrapper at most once, and an object is never
destroyed before every object whose deleter captures it (surface and debug
messenger over the instance; swapchain, image view, render pass,
framebuffer, command pool, semaphore, buffer and device memory over the
device; the command-buffer batch over device and command pool) has itself
been destroyed. -/
theorem vulkan_chain_destruction_order (ord : List Nat) (hnd : ord.Nodup)
    (hbound : ∀ i ∈ ord, i < vulkanChainSize) :
    (runReleases vulkanDeps vulkanChainSize ord
      (initialRcState vulkanDeps vulkanChainSize)).destroyLog.Nodup ∧
    (∀ i ∈ (runReleases vulkanDeps vulkanChainSize ord
        (initialRcState vulkanDeps vulkanChainSize)).destroyLog,
      ∀ k, k < vulkanChainSize → i ∈ vulkanDeps k →
        k ∈ (runReleases vulkanDeps vulkanChainSize ord
          (initialRcState vulkanDeps vulkanChainSize)).destroyLog) := by
  have hone : ∀ i ∈ ord, 1 ≤ (fun i : Nat =>
      if i < vulkanChainSize then 1 else 0) i := by
    intro i hi
    simp only [if_pos (hbound i hi)]
    exact le_refl 1
  have hinv := runReleases_inv vulkanDeps_wf ord
    (initialRcState vulkanDeps vulkanChainSize) _ hbound hnd
    (initialRcState_inv vulkanDeps_wf) hone
  exact ⟨hinv.log_nodup, hinv.log_ord⟩

/-- C8 witness: a concrete full teardown in creation order still destroys in
reverse-dependency order. -/
theorem vulkan_chain_destruction_order_witness :
    (runReleases vulkanDeps vulkanChainSize
      [0, 1, 2, 3, 4, 5, 6, 7, 8, 9, 10, 11, 12]
      (initialRcState vulkanDeps vulkanChainSize)).destroyLog.Nodup ∧
    (∀ i ∈ (runReleases vulkanDeps vulkanChainSize
        [0, 1, 2, 3, 4, 5, 6, 7, 8, 9, 10, 11, 12]
        (initialRcState vulkanDeps vulkanChainSize)).destroyLog,
      ∀ k, k < vulkanChainSize → i ∈ vulkanDeps k →
        k ∈ (runReleases vulkanDeps vulkanChainSize
          [0, 1, 2, 3, 4, 5, 6, 7, 8, 9, 10, 11, 12]
          (initialRcState vulkanDeps vulkanChainSize)).destroyLog) :=
  vulkan_chain_destruction_order [0, 1, 2, 3, 4, 5, 6, 7, 8, 9, 10, 11, 12]
    (by decide) (by decide)

end Vulkandemo
